import Mathlib

/-!
Verification of the frac-fluid calculator core (`interface.py`): the line
merger and field extractor of `extract_values_from_pdf`, the pure
`calculate` engine, the mass-balance validator, and the multi-well batch
loop.  Text is embedded as `List Char` (one list per line); Python real
arithmetic is embedded exactly over `ℚ`; Python `None` and the
not-a-number sentinel are embedded as `Option.none` in value position;
a raised exception is embedded as `Option.none` / `Except.error` at the
computation level.
-/

namespace FracCalc

/-- ASCII whitespace set recognised by Python's `str.strip` and the
regex class `\s` (space, tab, newline, carriage return, vertical tab,
form feed). -/
def pySpace (c : Char) : Bool :=
  c = ' ' || c = '\t' || c = '\n' || c = '\r' || c = '\x0b' || c = '\x0c'

/-- Python `str.strip()` from the left: drop leading whitespace. -/
def lstrip (s : List Char) : List Char := s.dropWhile pySpace

/-- Python `str.strip()` from the right: drop trailing whitespace. -/
def rstrip (s : List Char) : List Char := (lstrip s.reverse).reverse

/-- Python `str.strip()`: drop whitespace on both ends. -/
def strip (s : List Char) : List Char := rstrip (lstrip s)

/-- Python `str.lower()` (ASCII case fold, as used on the ASCII
chemical-name tokens of the source). -/
def lowerL (s : List Char) : List Char := s.map Char.toLower

/-- `hasPre p l` holds when the token list `p` is an initial segment of
`l`; models Python `str.startswith`. -/
def hasPre : List Char → List Char → Bool
  | [], _ => true
  | _ :: _, [] => false
  | p :: ps, c :: cs => (p == c) && hasPre ps cs

/-- Python substring containment `pat in line`. -/
def containsSub : List Char → List Char → Bool
  | l, p =>
    hasPre p l ||
      match l with
      | [] => false
      | _ :: t => containsSub t p

/-- The merge test of the line-repair loop (interface.py lines 90-95):
the current line, once stripped and case-folded, is exactly
`hydrochloric` (resp. `crystalline`) and the stripped, case-folded next
line starts with `acid` (resp. `silica`). -/
def mergeCond (cur nxt : List Char) : Bool :=
  (decide (lowerL cur = String.toList "hydrochloric") &&
    hasPre (String.toList "acid") (lowerL nxt)) ||
  (decide (lowerL cur = String.toList "crystalline") &&
    hasPre (String.toList "silica") (lowerL nxt))

/-- The line-merge pass of `extract_values_from_pdf` (interface.py lines
82-99): the `for i in range(len(raw_lines) - 1)` loop with its
`skip_next` flag, plus the final conditional append of the stripped last
line. A merged pair is emitted as the two stripped lines joined by a
single space, and the consumed second line is not re-emitted. -/
def fixLines : List (List Char) → List (List Char)
  | [] => []
  | [a] => [strip a]
  | a :: b :: rest =>
    if mergeCond (strip a) (strip b) then
      (strip a ++ ' ' :: strip b) :: fixLines rest
    else
      strip a :: fixLines (b :: rest)

/-- No adjacent pair of lines satisfies the merge test. -/
def adjOK : List (List Char) → Prop
  | x :: y :: rest => mergeCond x y = false ∧ adjOK (y :: rest)
  | _ => True

/-- No adjacent pair of raw lines triggers a merge (conditions checked on
the stripped lines, as the loop does). -/
def noMerges : List (List Char) → Bool
  | x :: y :: rest => !(mergeCond (strip x) (strip y)) && noMerges (y :: rest)
  | _ => true

/-! ### The calculation engine -/

/-- The gas-type selector of the UI: the strings `"None"`,
`"Nitrogen (N2)"` and `"Carbon Dioxide (CO2)"` offered by the selectbox,
which `calculate` compares against. -/
inductive GasType where
  | none_
  | nitrogen
  | co2
deriving DecidableEq, Repr

/-- The remark string of the result, modelled structurally: the
no-gas-contribution message, or the nitrogen / CO2 f-string with the two
interpolated quantities. -/
inductive Remark where
  | noGas
  | nitrogenIncluded (gasPercent scf : ℚ)
  | co2Included (gasPercent tons : ℚ)
deriving DecidableEq, Repr

/-- The result mapping returned by `calculate` (interface.py lines
169-184). Python real numbers are embedded exactly as rationals; Python
`None` and the `math.nan` sentinel are both embedded as `Option.none` in
the fields that can carry them. -/
structure CalcResult where
  total_mass_percent : ℚ
  total_water_weight : ℚ
  total_acid_weight : ℚ
  total_acid_volume_gal : ℚ
  total_acid_volume_bbl : ℚ
  total_ff_fluid_volume_gal : ℚ
  total_ff_fluid_volume_bbl : ℚ
  total_proppant_weight : ℚ
  proppant_weight_tons : ℚ
  ppg : Option ℚ
  gas_weight_lbs : Option ℚ
  co2_weight_tons : Option ℚ
  nitrogen_volume_scf : Option ℚ
  remark : Remark
deriving DecidableEq, Repr

/-- Python division: raises `ZeroDivisionError` (embedded as `none`) on a
zero divisor, otherwise the exact quotient. -/
def pyDiv (a b : ℚ) : Option ℚ := if b = 0 then none else some (a / b)

/-- The calculation engine `calculate` (interface.py lines 133-184). Every
`/` of the source is `pyDiv`, threaded through `Option` so that a raised
division error would surface as `none`; the source's conditional
expressions (`... if x else 0`, and `... if total_ff_fluid_volume_gal else
math.nan` for the PPG) are the `if` tests, with the not-a-number sentinel
embedded as `none` in the `ppg` field. -/
def calculate (twv wp hcl : ℚ) (pps : List ℚ) (gp : ℚ) (gt : GasType) :
    Option CalcResult :=
  let tpp := pps.sum
  let tmp := wp + hcl + tpp
  let tww := twv * (83454 / 10000)
  (if hcl ≠ 0 then (pyDiv hcl 100).map (· * tww) else some 0).bind fun taw =>
  (if taw ≠ 0 then pyDiv taw (895 / 100) else some 0).bind fun tavg =>
  (if tavg ≠ 0 then pyDiv tavg 42 else some 0).bind fun tavb =>
  let ff := twv - tavg
  (if ff ≠ 0 then pyDiv ff 42 else some 0).bind fun ffb =>
  (if tpp ≠ 0 then (pyDiv tpp 100).map (· * tww) else some 0).bind fun tpw =>
  (if tpw ≠ 0 then pyDiv tpw 2000 else some 0).bind fun tons =>
  (if ff ≠ 0 then (pyDiv tpw ff).map some else some (none : Option ℚ)).bind fun ppg =>
  if gt = GasType.nitrogen ∧ gp > 0 then
    ((pyDiv gp 100).map (· * tww)).bind fun gw =>
      some { total_mass_percent := tmp, total_water_weight := tww,
             total_acid_weight := taw, total_acid_volume_gal := tavg,
             total_acid_volume_bbl := tavb, total_ff_fluid_volume_gal := ff,
             total_ff_fluid_volume_bbl := ffb, total_proppant_weight := tpw,
             proppant_weight_tons := tons, ppg := ppg,
             gas_weight_lbs := some gw, co2_weight_tons := none,
             nitrogen_volume_scf := some (gw * (13803 / 1000)),
             remark := Remark.nitrogenIncluded gp (gw * (13803 / 1000)) }
  else if gt = GasType.co2 ∧ gp > 0 then
    ((pyDiv gp 100).map (· * tww)).bind fun gw =>
      (pyDiv gw 2000).bind fun gtons =>
      some { total_mass_percent := tmp, total_water_weight := tww,
             total_acid_weight := taw, total_acid_volume_gal := tavg,
             total_acid_volume_bbl := tavb, total_ff_fluid_volume_gal := ff,
             total_ff_fluid_volume_bbl := ffb, total_proppant_weight := tpw,
             proppant_weight_tons := tons, ppg := ppg,
             gas_weight_lbs := some gw, co2_weight_tons := some gtons,
             nitrogen_volume_scf := none,
             remark := Remark.co2Included gp gtons }
  else
    some { total_mass_percent := tmp, total_water_weight := tww,
           total_acid_weight := taw, total_acid_volume_gal := tavg,
           total_acid_volume_bbl := tavb, total_ff_fluid_volume_gal := ff,
           total_ff_fluid_volume_bbl := ffb, total_proppant_weight := tpw,
           proppant_weight_tons := tons, ppg := ppg,
           gas_weight_lbs := none, co2_weight_tons := none,
           nitrogen_volume_scf := none, remark := Remark.noGas }

/-- The same derivation with Python's total-on-rationals division, used as
the explicit value that `calculate` always succeeds with. -/
def calcPure (twv wp hcl : ℚ) (pps : List ℚ) (gp : ℚ) (gt : GasType) :
    CalcResult :=
  let tpp := pps.sum
  let tmp := wp + hcl + tpp
  let tww := twv * (83454 / 10000)
  let taw := if hcl ≠ 0 then hcl / 100 * tww else 0
  let tavg := if taw ≠ 0 then taw / (895 / 100) else 0
  let tavb := if tavg ≠ 0 then tavg / 42 else 0
  let ff := twv - tavg
  let ffb := if ff ≠ 0 then ff / 42 else 0
  let tpw := if tpp ≠ 0 then tpp / 100 * tww else 0
  let tons := if tpw ≠ 0 then tpw / 2000 else 0
  let ppg : Option ℚ := if ff ≠ 0 then some (tpw / ff) else none
  { total_mass_percent := tmp, total_water_weight := tww,
    total_acid_weight := taw, total_acid_volume_gal := tavg,
    total_acid_volume_bbl := tavb, total_ff_fluid_volume_gal := ff,
    total_ff_fluid_volume_bbl := ffb, total_proppant_weight := tpw,
    proppant_weight_tons := tons, ppg := ppg,
    gas_weight_lbs :=
      if (gt = GasType.nitrogen ∧ gp > 0) ∨ (gt = GasType.co2 ∧ gp > 0) then
        some (gp / 100 * tww)
      else none,
    co2_weight_tons :=
      if gt = GasType.co2 ∧ gp > 0 then some (gp / 100 * tww / 2000) else none,
    nitrogen_volume_scf :=
      if gt = GasType.nitrogen ∧ gp > 0 then
        some (gp / 100 * tww * (13803 / 1000))
      else none,
    remark :=
      if gt = GasType.nitrogen ∧ gp > 0 then
        Remark.nitrogenIncluded gp (gp / 100 * tww * (13803 / 1000))
      else if gt = GasType.co2 ∧ gp > 0 then
        Remark.co2Included gp (gp / 100 * tww / 2000)
      else Remark.noGas }

/-- The mass-balance validator of single-well mode (interface.py lines
239-240): the displayed warning fires exactly when the summed mass
percentage is below 90 or above 110. -/
def massOutOfRange (m : ℚ) : Bool := decide (m < 90) || decide (m > 110)

/-- The validator step as it acts on a result: it produces the advisory
flag and leaves the result untouched (the source only conditionally calls
`st.warning` and never writes into `result`). -/
def validateResult (r : CalcResult) : Bool × CalcResult :=
  (massOutOfRange r.total_mass_percent, r)

/-! ### The field extractor -/

/-- Numeric value of a digit run: Python `int` of the matched group (and
the digit parts of `float`). -/
def digitsVal (ds : List Char) : Nat :=
  ds.foldl (fun n c => 10 * n + (c.toNat - 48)) 0

/-- Fuelled scanner for `re.findall(r"\d+(?:\.\d+)?", line)`: left to
right and non-overlapping, each match is a maximal digit run optionally
extended by a dot and a further nonempty maximal digit run. The fuel
argument only forces structural recursion; `scanNums` supplies the list
length, which is always sufficient. -/
def scanNumsF : Nat → List Char → List (List Char)
  | 0, _ => []
  | _, [] => []
  | fuel + 1, c :: cs =>
    if c.isDigit then
      let ip := List.takeWhile Char.isDigit (c :: cs)
      match List.dropWhile Char.isDigit cs with
      | '.' :: d :: r2 =>
        if d.isDigit then
          (ip ++ '.' :: List.takeWhile Char.isDigit (d :: r2)) ::
            scanNumsF fuel (List.dropWhile Char.isDigit (d :: r2))
        else ip :: scanNumsF fuel ('.' :: d :: r2)
      | r => ip :: scanNumsF fuel r
    else scanNumsF fuel cs

/-- All numeric tokens (integer or decimal) of a line, in order. -/
def scanNums (l : List Char) : List (List Char) := scanNumsF l.length l

/-- Python `float` of a matched numeric token (digits, optionally a dot
and more digits), embedded exactly as a rational. -/
def parseNum (t : List Char) : ℚ :=
  let ip := t.takeWhile (· != '.')
  match t.dropWhile (· != '.') with
  | '.' :: fp => (digitsVal ip : ℚ) + (digitsVal fp : ℚ) / (10 : ℚ) ^ fp.length
  | _ => (digitsVal ip : ℚ)

/-- `find_number` (interface.py lines 101-107): scan the merged lines in
order; on a line containing the pattern, return the last numeric token as
a float; if a matching line had no numeric token, keep scanning; `None`
when nothing matches. -/
def find_number (fixed : List (List Char)) (pat : List Char) : Option ℚ :=
  match fixed with
  | [] => none
  | line :: rest =>
    if containsSub line pat then
      match (scanNums line).getLast? with
      | some n => some (parseNum n)
      | none => find_number rest pat
    else find_number rest pat

/-- `find_by_cas` (interface.py lines 109-115): its body is identical to
`find_number`, applied to a CAS registry number as the pattern. -/
def find_by_cas (fixed : List (List Char)) (cas : List Char) : Option ℚ :=
  find_number fixed cas

/-- The `water_percent` entry of the extraction result (interface.py line
125). -/
def water_percent_of (fixed : List (List Char)) : Option ℚ :=
  find_number fixed (String.toList "Water 7732-18-5")

/-- The `hcl_percent` entry of the extraction result (interface.py line
126). -/
def hcl_percent_of (fixed : List (List Char)) : Option ℚ :=
  find_by_cas fixed (String.toList "7647-01-0")

/-- The `proppant_percent` entry of the extraction result (interface.py
line 127). -/
def proppant_percent_of (fixed : List (List Char)) : Option ℚ :=
  find_by_cas fixed (String.toList "14808-60-7")

/-- The tail `.*?:\s*(\d+)` of the total-water regex, after the header
phrase has matched: reach a `:` without crossing a newline (`.` does not
match `\n`), skip `\s*`, and take a nonempty digit run; on failure
backtrack to a later `:` of the same line. -/
def tryColon : List Char → Option Nat
  | [] => none
  | c :: cs =>
    if c = ':' then
      let ds := List.takeWhile Char.isDigit (List.dropWhile pySpace cs)
      if ds.isEmpty then tryColon cs else some (digitsVal ds)
    else if c = '\n' then none
    else tryColon cs

/-- The case-folded header phrase of the total-water regex (23
characters). -/
def phraseL : List Char := String.toList "total base water volume"

/-- `re.search(r"Total Base Water Volume.*?:\s*(\d+)", text, IGNORECASE)`
(interface.py lines 117-121): the leftmost position where the whole
pattern matches wins, and group 1 is read with Python `int`. -/
def searchTBWV : List Char → Option Nat
  | [] => none
  | c :: cs =>
    if hasPre phraseL (lowerL (c :: cs)) then
      match tryColon (List.drop 23 (c :: cs)) with
      | some n => some n
      | none => searchTBWV cs
    else searchTBWV cs

/-- Python `"\n".join(lines)` (interface.py line 119). -/
def joinNL (lines : List (List Char)) : List Char :=
  List.intercalate ['\n'] lines

/-- The `total_water_volume` entry of the extraction result (interface.py
lines 117-124): the regex search over the joined merged lines, `None`
when there is no match. -/
def total_water_volume_of (fixed : List (List Char)) : Option Nat :=
  searchTBWV (joinNL fixed)

/-! ### Batch mode -/

/-- The value dictionary produced by `extract_values_from_pdf`
(interface.py lines 123-130), minus the debug `raw_lines` entry; the
`gas_percent` entry is the constant 0.0 of line 128. -/
structure ExtractedVals where
  total_water_volume : Option Nat
  water_percent : Option ℚ
  hcl_percent : Option ℚ
  proppant_percent : Option ℚ
  gas_percent : ℚ
deriving DecidableEq, Repr

/-- The extraction pipeline from merged lines to the value dictionary. -/
def extractVals (fixed : List (List Char)) : ExtractedVals :=
  { total_water_volume := total_water_volume_of fixed,
    water_percent := water_percent_of fixed,
    hcl_percent := hcl_percent_of fixed,
    proppant_percent := proppant_percent_of fixed,
    gas_percent := 0 }

/-- One uploaded document of the batch: either the raw text lines that
pdfplumber extracts from it, or a corrupt/unreadable file on which the
external pdfplumber call raises. Only the reading of PDF bytes — which
happens inside the external library — is abstracted to this two-case
outcome; everything after it is the source's own code. -/
inductive BatchOutcome where
  | readable (rawLines : List (List Char))
  | corrupt
deriving DecidableEq, Repr

/-- A document in the batch upload, tagged with its file name (an opaque
identifier). -/
structure BatchDoc where
  name : Nat
  outcome : BatchOutcome
deriving DecidableEq, Repr

/-- One iteration of the batch `try` block (interface.py lines 296-307):
extract, apply the `or`-defaults, call the engine with the single
extracted proppant slot and gas type `"None"`, and tag the row with the
file name; any raised error is the `Except.error` case. -/
def processDoc (d : BatchDoc) : Except Unit (CalcResult × Nat) :=
  match d.outcome with
  | BatchOutcome.corrupt => Except.error ()
  | BatchOutcome.readable ls =>
    let v := extractVals (fixLines ls)
    match calculate ((v.total_water_volume.getD 0 : Nat) : ℚ)
        (v.water_percent.getD 0) (v.hcl_percent.getD 0)
        [v.proppant_percent.getD 0] v.gas_percent GasType.none_ with
    | some c => Except.ok (c, d.name)
    | none => Except.error ()

/-- The batch loop (interface.py lines 293-309): sequential and
order-preserving, appending each successful row to `all_results` and
emitting one `st.error` record (here: the file name) per failed document
without aborting the rest. -/
def runBatch : List BatchDoc → List (CalcResult × Nat) × List Nat
  | [] => ([], [])
  | d :: ds =>
    let rest := runBatch ds
    match processDoc d with
    | Except.ok row => (row :: rest.1, rest.2)
    | Except.error _ => (rest.1, d.name :: rest.2)

/-! ### Basic facts about stripping, case folding and the merge test -/

theorem getLast?_dropWhile_of_ne {α : Type} (p : α → Bool) (l : List α)
    (h : l.dropWhile p ≠ []) : (l.dropWhile p).getLast? = l.getLast? := by
  induction l with
  | nil => simp at h
  | cons a t ih =>
    rw [List.dropWhile_cons] at h ⊢
    by_cases hp : p a
    · simp only [hp, if_true] at h ⊢
      have ht : t ≠ [] := by
        intro h0; rw [h0] at h; simp at h
      rw [ih h]
      obtain ⟨x, xs, rfl⟩ := List.exists_cons_of_ne_nil ht
      rw [List.getLast?_cons_cons]
    · simp [hp]

theorem head?_lstrip_not_space (s : List Char) :
    ∀ c, (lstrip s).head? = some c → pySpace c = false := by
  intro c h
  have h4 := List.head?_dropWhile_not pySpace s
  rw [show List.dropWhile pySpace s = lstrip s from rfl, h] at h4
  exact h4

theorem head?_strip_not_space (s : List Char) :
    ∀ c, (strip s).head? = some c → pySpace c = false := by
  intro c h
  have h1 : (lstrip ((lstrip s).reverse)).getLast? = some c := by
    rw [← List.head?_reverse]; exact h
  have hne : lstrip ((lstrip s).reverse) ≠ [] := by
    intro h0; rw [h0] at h1; simp at h1
  have h2 : ((lstrip s).reverse).getLast? = some c := by
    rw [← getLast?_dropWhile_of_ne pySpace _ hne]; exact h1
  have h3 : (lstrip s).head? = some c := by
    rw [← List.getLast?_reverse]; exact h2
  exact head?_lstrip_not_space s c h3

theorem getLast?_strip_not_space (s : List Char) :
    ∀ c, (strip s).getLast? = some c → pySpace c = false := by
  intro c h
  have h1 : (lstrip ((lstrip s).reverse)).head? = some c := by
    rw [← List.getLast?_reverse]; exact h
  exact head?_lstrip_not_space ((lstrip s).reverse) c h1

theorem strip_eq_self_of (s : List Char)
    (h1 : ∀ c, s.head? = some c → pySpace c = false)
    (h2 : ∀ c, s.getLast? = some c → pySpace c = false) : strip s = s := by
  have hl : lstrip s = s := by
    cases s with
    | nil => rfl
    | cons a t =>
      rw [lstrip, List.dropWhile_cons, h1 a rfl]
      simp
  show rstrip (lstrip s) = s
  rw [hl]
  show (lstrip s.reverse).reverse = s
  have hr : lstrip s.reverse = s.reverse := by
    cases hrev : s.reverse with
    | nil => rfl
    | cons a t =>
      have ha : s.getLast? = some a := by rw [← List.head?_reverse, hrev]; rfl
      rw [lstrip, List.dropWhile_cons, h2 a ha]
      simp
  rw [hr, List.reverse_reverse]

theorem strip_strip (s : List Char) : strip (strip s) = strip s :=
  strip_eq_self_of _ (head?_strip_not_space s) (getLast?_strip_not_space s)

theorem hasPre_append_self (p r : List Char) : hasPre p (p ++ r) = true := by
  induction p with
  | nil => rfl
  | cons a ps ih => simp [hasPre, ih]

theorem exists_of_hasPre : ∀ (p l : List Char), hasPre p l = true → ∃ r, l = p ++ r := by
  intro p
  induction p with
  | nil => exact fun l _ => ⟨l, rfl⟩
  | cons a ps ih =>
    intro l h
    cases l with
    | nil => simp [hasPre] at h
    | cons c cs =>
      rw [hasPre, Bool.and_eq_true, beq_iff_eq] at h
      obtain ⟨rfl, h2⟩ := h
      obtain ⟨r, rfl⟩ := ih cs h2
      exact ⟨r, rfl⟩

theorem length_le_of_hasPre {p l : List Char} (h : hasPre p l = true) :
    p.length ≤ l.length := by
  obtain ⟨r, rfl⟩ := exists_of_hasPre p l h
  simp

theorem exists_of_containsSub : ∀ (l p : List Char), containsSub l p = true →
    ∃ u v, l = u ++ p ++ v := by
  intro l
  induction l with
  | nil =>
    intro p h
    rw [containsSub] at h
    simp only [Bool.or_eq_true] at h
    rcases h with h | h
    · obtain ⟨r, hr⟩ := exists_of_hasPre p [] h
      exact ⟨[], [], by simp_all⟩
    · simp at h
  | cons a t ih =>
    intro p h
    rw [containsSub] at h
    simp only [Bool.or_eq_true] at h
    rcases h with h | h
    · obtain ⟨r, hr⟩ := exists_of_hasPre p _ h
      exact ⟨[], r, by simp [hr]⟩
    · obtain ⟨u, v, huv⟩ := ih p h
      exact ⟨a :: u, v, by simp [huv]⟩

theorem hasPre_false_of_head_ne {p c : Char} {ps cs : List Char} (h : p ≠ c) :
    hasPre (p :: ps) (c :: cs) = false := by
  simp [hasPre, h]

theorem mc_cases {a b : List Char} (h : mergeCond a b = true) :
    (lowerL a = String.toList "hydrochloric" ∧
      hasPre (String.toList "acid") (lowerL b) = true) ∨
    (lowerL a = String.toList "crystalline" ∧
      hasPre (String.toList "silica") (lowerL b) = true) := by
  simp only [mergeCond, Bool.or_eq_true, Bool.and_eq_true, decide_eq_true_eq] at h
  exact h

theorem mc_lengths {a b : List Char} (h : mergeCond a b = true) :
    11 ≤ a.length ∧ 4 ≤ b.length := by
  rcases mc_cases h with ⟨h1, h2⟩ | ⟨h1, h2⟩
  · have ha : a.length = 12 := by
      have := congrArg List.length h1
      rwa [lowerL, List.length_map,
        show (String.toList "hydrochloric").length = 12 from rfl] at this
    have hb := length_le_of_hasPre h2
    rw [lowerL, List.length_map, show (String.toList "acid").length = 4 from rfl] at hb
    omega
  · have ha : a.length = 11 := by
      have := congrArg List.length h1
      rwa [lowerL, List.length_map,
        show (String.toList "crystalline").length = 11 from rfl] at this
    have hb := length_le_of_hasPre h2
    rw [lowerL, List.length_map, show (String.toList "silica").length = 6 from rfl] at hb
    omega

theorem lowerL_append_space (b c : List Char) :
    lowerL (b ++ ' ' :: c) = lowerL b ++ ' ' :: lowerL c := by
  rw [lowerL, List.map_append, List.map_cons, show Char.toLower ' ' = ' ' from rfl]
  rfl

theorem mergeCond_merged_left {a b : List Char} (z : List Char)
    (h : mergeCond a b = true) : mergeCond (a ++ ' ' :: b) z = false := by
  obtain ⟨ha, hb⟩ := mc_lengths h
  have hL : ∀ n, (lowerL (a ++ ' ' :: b)).length = n → a.length + b.length + 1 = n := by
    intro n hn
    rw [lowerL, List.length_map] at hn
    simpa using hn
  have h1 : ¬(lowerL (a ++ ' ' :: b) = String.toList "hydrochloric") := by
    intro he
    have := hL 12 (by rw [he]; rfl)
    omega
  have h2 : ¬(lowerL (a ++ ' ' :: b) = String.toList "crystalline") := by
    intro he
    have := hL 11 (by rw [he]; rfl)
    omega
  rw [mergeCond, decide_eq_false h1, decide_eq_false h2]
  simp

theorem mergeCond_merged_right {b c : List Char} (x : List Char)
    (h : mergeCond b c = true) : mergeCond x (b ++ ' ' :: c) = false := by
  have hA : hasPre (String.toList "acid") (lowerL (b ++ ' ' :: c)) = false := by
    rw [lowerL_append_space]
    rcases mc_cases h with ⟨h1, _⟩ | ⟨h1, _⟩ <;> rw [h1]
    · rw [show String.toList "hydrochloric" ++ ' ' :: lowerL c =
          'h' :: (String.toList "ydrochloric" ++ ' ' :: lowerL c) from rfl,
        show String.toList "acid" = 'a' :: String.toList "cid" from rfl]
      exact hasPre_false_of_head_ne (by decide)
    · rw [show String.toList "crystalline" ++ ' ' :: lowerL c =
          'c' :: (String.toList "rystalline" ++ ' ' :: lowerL c) from rfl,
        show String.toList "acid" = 'a' :: String.toList "cid" from rfl]
      exact hasPre_false_of_head_ne (by decide)
  have hS : hasPre (String.toList "silica") (lowerL (b ++ ' ' :: c)) = false := by
    rw [lowerL_append_space]
    rcases mc_cases h with ⟨h1, _⟩ | ⟨h1, _⟩ <;> rw [h1]
    · rw [show String.toList "hydrochloric" ++ ' ' :: lowerL c =
          'h' :: (String.toList "ydrochloric" ++ ' ' :: lowerL c) from rfl,
        show String.toList "silica" = 's' :: String.toList "ilica" from rfl]
      exact hasPre_false_of_head_ne (by decide)
    · rw [show String.toList "crystalline" ++ ' ' :: lowerL c =
          'c' :: (String.toList "rystalline" ++ ' ' :: lowerL c) from rfl,
        show String.toList "silica" = 's' :: String.toList "ilica" from rfl]
      exact hasPre_false_of_head_ne (by decide)
  rw [mergeCond, hA, hS]
  simp

/-! ### Structure of the merge pass -/

theorem adjOK_cons (w : List Char) (l : List (List Char))
    (h : ∀ z zs, l = z :: zs → mergeCond w z = false) (hl : adjOK l) :
    adjOK (w :: l) := by
  cases l with
  | nil => trivial
  | cons z zs => exact ⟨h z zs rfl, hl⟩

theorem fixLines_mem_strip : ∀ l, ∀ e ∈ fixLines l, strip e = e := by
  intro l
  induction l using fixLines.induct with
  | case1 => intro e he; simp [fixLines] at he
  | case2 a =>
    intro e he
    simp only [fixLines, List.mem_singleton] at he
    rw [he]; exact strip_strip a
  | case3 a b rest hc ih =>
    intro e he
    simp only [fixLines, if_pos hc, List.mem_cons] at he
    rcases he with rfl | he
    · obtain ⟨ha, hb⟩ := mc_lengths hc
      obtain ⟨x, xs, hx⟩ := List.exists_cons_of_ne_nil
        (show strip a ≠ [] by intro h0; rw [h0] at ha; simp at ha)
      obtain ⟨y, ys, hy⟩ := List.exists_cons_of_ne_nil
        (show strip b ≠ [] by intro h0; rw [h0] at hb; simp at hb)
      refine strip_eq_self_of _ ?_ ?_
      · intro c hcc
        rw [hx] at hcc
        simp only [List.cons_append, List.head?_cons, Option.some_inj] at hcc
        refine head?_strip_not_space a c ?_
        rw [hx, hcc]; rfl
      · intro c hcc
        rw [List.getLast?_append] at hcc
        have hyy : (' ' :: strip b).getLast? = (strip b).getLast? := by
          rw [hy, List.getLast?_cons_cons]
        rw [hyy] at hcc
        have hbs : (strip b).getLast?.isSome = true := by
          rw [List.getLast?_isSome]
          intro h0; rw [h0] at hb; simp at hb
        obtain ⟨d, hd⟩ := Option.isSome_iff_exists.mp hbs
        rw [hd] at hcc
        simp only [Option.or_some, Option.some_inj] at hcc
        rw [hcc] at hd
        exact getLast?_strip_not_space b c hd
    · exact ih e he
  | case4 a b rest hc ih =>
    intro e he
    simp only [fixLines, if_neg hc, List.mem_cons] at he
    rcases he with rfl | he
    · exact strip_strip a
    · exact ih e he

theorem fixLines_head_cases (b : List Char) (l : List (List Char)) (z : List Char)
    (zs : List (List Char)) (h : fixLines (b :: l) = z :: zs) :
    z = strip b ∨ ∃ c, mergeCond (strip b) (strip c) = true ∧
      z = strip b ++ ' ' :: strip c := by
  cases l with
  | nil =>
    simp only [fixLines, List.cons.injEq] at h
    exact Or.inl h.1.symm
  | cons c rs =>
    by_cases hm : mergeCond (strip b) (strip c) = true
    · simp only [fixLines, if_pos hm, List.cons.injEq] at h
      exact Or.inr ⟨c, hm, h.1.symm⟩
    · simp only [fixLines, if_neg hm, List.cons.injEq] at h
      exact Or.inl h.1.symm

theorem fixLines_adjOK : ∀ l, adjOK (fixLines l) := by
  intro l
  induction l using fixLines.induct with
  | case1 => trivial
  | case2 a => trivial
  | case3 a b rest hc ih =>
    rw [fixLines, if_pos hc]
    exact adjOK_cons _ _ (fun z zs _ => mergeCond_merged_left z hc) ih
  | case4 a b rest hc ih =>
    rw [fixLines, if_neg hc]
    refine adjOK_cons _ _ ?_ ih
    intro z zs hz
    rcases fixLines_head_cases b rest z zs hz with rfl | ⟨c, hmc, rfl⟩
    · exact Bool.eq_false_iff.mpr hc
    · exact mergeCond_merged_right (strip a) hmc

theorem fixLines_of_adjOK : ∀ l, (∀ e ∈ l, strip e = e) → adjOK l → fixLines l = l := by
  intro l
  induction l using fixLines.induct with
  | case1 => intro _ _; rfl
  | case2 a =>
    intro hs _
    rw [fixLines, hs a (List.mem_singleton_self a)]
  | case3 a b rest hc ih =>
    intro hs hadj
    exfalso
    have ha := hs a (by simp)
    have hb := hs b (by simp)
    rw [ha, hb] at hc
    exact absurd hc (by simpa using hadj.1)
  | case4 a b rest hc ih =>
    intro hs hadj
    rw [fixLines, if_neg hc, hs a (by simp)]
    rw [ih (fun e he => hs e (List.mem_cons_of_mem a he)) hadj.2]

theorem fixLines_map_strip : ∀ l, noMerges l = true → fixLines l = l.map strip := by
  intro l
  induction l using fixLines.induct with
  | case1 => intro _; rfl
  | case2 a => intro _; rfl
  | case3 a b rest hc ih =>
    intro hn
    exfalso
    rw [noMerges, Bool.and_eq_true, Bool.not_eq_true'] at hn
    rw [hn.1] at hc
    exact Bool.false_ne_true hc
  | case4 a b rest hc ih =>
    intro hn
    rw [noMerges, Bool.and_eq_true] at hn
    rw [fixLines, if_neg hc, ih hn.2]
    rfl

/-- Claim C4: the Line Merger is idempotent: for every line sequence,
running the merge pass on the output of the merge pass yields that output
unchanged. -/
theorem fixLines_idempotent (l : List (List Char)) :
    fixLines (fixLines l) = fixLines l :=
  fixLines_of_adjOK (fixLines l) (fixLines_mem_strip l) (fixLines_adjOK l)

/-- Claim C5, counterexample: the merge pass does not pass every
non-matching line through unchanged — a line carrying surrounding
whitespace is emitted stripped, so on the input consisting of the single
non-matching line `" x"` the output differs from the input. -/
theorem fixLines_not_unchanged :
    fixLines [String.toList " x"] ≠ [String.toList " x"] := by decide

/-- Claim C5 (amended): the merger joins a line whose trimmed, case-folded
text exactly equals `hydrochloric` or `crystalline` with the immediately
following line when that line's normalized text starts with `acid` or
`silica` respectively, using a single interposing space and not re-emitting
the consumed second line; every non-matching line is passed through with
surrounding whitespace trimmed but otherwise unchanged (in particular when
no merge applies anywhere the output is exactly the stripped input, with
the last line emitted); and the concrete example merges as stated. -/
theorem fixLines_merge_behavior :
    (fixLines [String.toList "Hydrochloric", String.toList "Acid 7647-01-0 10.5 15.0"] =
      [String.toList "Hydrochloric Acid 7647-01-0 10.5 15.0"]) ∧
    (∀ a b rest, mergeCond (strip a) (strip b) = true →
      fixLines (a :: b :: rest) = (strip a ++ ' ' :: strip b) :: fixLines rest) ∧
    (∀ a b rest, mergeCond (strip a) (strip b) = false →
      fixLines (a :: b :: rest) = strip a :: fixLines (b :: rest)) ∧
    (∀ l, noMerges l = true → fixLines l = l.map strip) := by
  refine ⟨by decide, ?_, ?_, fixLines_map_strip⟩
  · intro a b rest h
    rw [fixLines, if_pos h]
  · intro a b rest h
    rw [fixLines, if_neg (by simp [h])]

/-- Witness for the amended Claim C5, at a concrete merging input. -/
theorem fixLines_merge_behavior_witness :
    fixLines [String.toList " hydrochloric ", String.toList "ACID x", String.toList "t"] =
      (strip (String.toList " hydrochloric ") ++ ' ' :: strip (String.toList "ACID x")) ::
        fixLines [String.toList "t"] :=
  fixLines_merge_behavior.2.1 _ _ _ (by decide)

/-! ### The engine is total -/

theorem bind_guardA {β : Type} (x t : ℚ) (k : ℚ → Option β) :
    ((if x ≠ 0 then (pyDiv x 100).map (· * t) else some 0).bind k) =
      k (if x ≠ 0 then x / 100 * t else 0) := by
  by_cases h : x = 0
  · simp [h]
  · simp [pyDiv, h, (by norm_num : (100 : ℚ) ≠ 0)]

theorem bind_guard895 {β : Type} (x : ℚ) (k : ℚ → Option β) :
    ((if x ≠ 0 then pyDiv x (895 / 100) else some 0).bind k) =
      k (if x ≠ 0 then x / (895 / 100) else 0) := by
  by_cases h : x = 0
  · simp [h]
  · simp [pyDiv, h, (by norm_num : (895 / 100 : ℚ) ≠ 0)]

theorem bind_guard42 {β : Type} (x : ℚ) (k : ℚ → Option β) :
    ((if x ≠ 0 then pyDiv x 42 else some 0).bind k) =
      k (if x ≠ 0 then x / 42 else 0) := by
  by_cases h : x = 0
  · simp [h]
  · simp [pyDiv, h, (by norm_num : (42 : ℚ) ≠ 0)]

theorem bind_guard2000 {β : Type} (x : ℚ) (k : ℚ → Option β) :
    ((if x ≠ 0 then pyDiv x 2000 else some 0).bind k) =
      k (if x ≠ 0 then x / 2000 else 0) := by
  by_cases h : x = 0
  · simp [h]
  · simp [pyDiv, h, (by norm_num : (2000 : ℚ) ≠ 0)]

theorem bind_guardC {β : Type} (tpw ff : ℚ) (k : Option ℚ → Option β) :
    ((if ff ≠ 0 then (pyDiv tpw ff).map some else some (none : Option ℚ)).bind k) =
      k (if ff ≠ 0 then some (tpw / ff) else none) := by
  by_cases h : ff = 0
  · simp [h]
  · simp [pyDiv, h]

theorem calculate_eq (twv wp hcl : ℚ) (pps : List ℚ) (gp : ℚ) (gt : GasType) :
    calculate twv wp hcl pps gp gt = some (calcPure twv wp hcl pps gp gt) := by
  unfold calculate calcPure
  simp only [bind_guardA, bind_guard895, bind_guard42, bind_guard2000, bind_guardC]
  by_cases h1 : gt = GasType.nitrogen ∧ gp > 0
  · obtain ⟨rfl, hgp⟩ := h1
    simp [pyDiv, hgp, (by norm_num : (100 : ℚ) ≠ 0)]
  · by_cases h2 : gt = GasType.co2 ∧ gp > 0
    · obtain ⟨rfl, hgp⟩ := h2
      simp [pyDiv, hgp, (by norm_num : (100 : ℚ) ≠ 0),
        (by norm_num : (2000 : ℚ) ≠ 0)]
    · simp [h1, h2]

/-- Claim C1: for every numeric input the calculation engine never raises:
`calculate` always returns a result; whenever the fracturing-fluid volume
comes out exactly 0 the PPG field is the not-a-number sentinel (`none`),
never a raised division failure; and the guarded acid and proppant
quantities substitute 0 when their guards are zero. -/
theorem calculate_never_raises (twv wp hcl : ℚ) (pps : List ℚ) (gp : ℚ)
    (gt : GasType) :
    ∃ r, calculate twv wp hcl pps gp gt = some r ∧
      (r.total_ff_fluid_volume_gal = 0 → r.ppg = none) ∧
      (hcl = 0 → r.total_acid_weight = 0) ∧
      (pps.sum = 0 → r.total_proppant_weight = 0) := by
  refine ⟨calcPure twv wp hcl pps gp gt, calculate_eq twv wp hcl pps gp gt,
    ?_, ?_, ?_⟩
  · intro h0
    simp only [calcPure] at h0 ⊢
    rw [if_neg (not_not_intro h0)]
  · intro h0
    subst h0
    simp [calcPure]
  · intro h0
    simp only [calcPure]
    simp [h0]

/-- Witness for Claim C1, at an input whose fracturing-fluid volume is 0. -/
theorem calculate_never_raises_witness :
    ∃ r, calculate 0 0 0 [] 0 GasType.none_ = some r ∧
      (r.total_ff_fluid_volume_gal = 0 → r.ppg = none) ∧
      ((0 : ℚ) = 0 → r.total_acid_weight = 0) ∧
      (List.sum ([] : List ℚ) = 0 → r.total_proppant_weight = 0) :=
  calculate_never_raises 0 0 0 [] 0 GasType.none_

/-- Claim C2: with gas type None or a non-positive gas percent, all three
gas outputs of `calculate` are null (`none`, never zero) and the remark
reports no gas contribution; more generally the gas fields not applicable
to the selected gas branch are null. -/
theorem calculate_gas_nulls (twv wp hcl : ℚ) (pps : List ℚ) (gp : ℚ)
    (gt : GasType) (r : CalcResult)
    (h : calculate twv wp hcl pps gp gt = some r) :
    ((gt = GasType.none_ ∨ gp ≤ 0) →
      r.gas_weight_lbs = none ∧ r.co2_weight_tons = none ∧
        r.nitrogen_volume_scf = none ∧ r.remark = Remark.noGas) ∧
    (gt = GasType.nitrogen → r.co2_weight_tons = none) ∧
    (gt = GasType.co2 → r.nitrogen_volume_scf = none) := by
  rw [calculate_eq] at h
  obtain rfl : r = calcPure twv wp hcl pps gp gt := (Option.some_inj.mp h).symm
  refine ⟨?_, ?_, ?_⟩
  · intro hg
    have h1 : ¬(gt = GasType.nitrogen ∧ gp > 0) := by
      rcases hg with rfl | hg
      · rintro ⟨h, -⟩; cases h
      · rintro ⟨-, h⟩; exact absurd hg (not_le.mpr h)
    have h2 : ¬(gt = GasType.co2 ∧ gp > 0) := by
      rcases hg with rfl | hg
      · rintro ⟨h, -⟩; cases h
      · rintro ⟨-, h⟩; exact absurd hg (not_le.mpr h)
    refine ⟨?_, ?_, ?_, ?_⟩ <;> simp [calcPure, h1, h2]
  · rintro rfl
    simp [calcPure]
  · rintro rfl
    simp [calcPure]

/-- Witness for Claim C2, at a concrete no-gas input. -/
theorem calculate_gas_nulls_witness :
    (((GasType.none_ = GasType.none_ ∨ (0 : ℚ) ≤ 0) →
      (calcPure 1 1 1 [1] 0 GasType.none_).gas_weight_lbs = none ∧
        (calcPure 1 1 1 [1] 0 GasType.none_).co2_weight_tons = none ∧
        (calcPure 1 1 1 [1] 0 GasType.none_).nitrogen_volume_scf = none ∧
        (calcPure 1 1 1 [1] 0 GasType.none_).remark = Remark.noGas) ∧
      (GasType.none_ = GasType.nitrogen →
        (calcPure 1 1 1 [1] 0 GasType.none_).co2_weight_tons = none) ∧
      (GasType.none_ = GasType.co2 →
        (calcPure 1 1 1 [1] 0 GasType.none_).nitrogen_volume_scf = none)) :=
  calculate_gas_nulls 1 1 1 [1] 0 GasType.none_
    (calcPure 1 1 1 [1] 0 GasType.none_) (calculate_eq 1 1 1 [1] 0 GasType.none_)

/-- Claim C3: the end-to-end example: total water volume 100000 gal, 90%
water, 0.5% HCl, 9.5% proppant in slot 1, no gas, evaluates to the stated
quantities (the approximate ones within one unit in their last printed
decimal place). -/
theorem calculate_example :
    ∃ r, calculate 100000 90 (1 / 2) [19 / 2, 0, 0, 0, 0, 0] 0 GasType.none_ =
        some r ∧
      r.total_mass_percent = 100 ∧
      r.total_water_weight = 834540 ∧
      r.total_acid_weight = 41727 / 10 ∧
      |r.total_acid_volume_gal - 46623 / 100| < 1 / 100 ∧
      |r.total_ff_fluid_volume_gal - 9953377 / 100| < 1 / 100 ∧
      r.total_proppant_weight = 792813 / 10 ∧
      |r.proppant_weight_tons - 3964 / 100| < 1 / 100 ∧
      ∃ v, r.ppg = some v ∧ |v - 7966 / 10000| < 1 / 10000 := by
  refine ⟨calcPure 100000 90 (1 / 2) [19 / 2, 0, 0, 0, 0, 0] 0 GasType.none_,
    calculate_eq 100000 90 (1 / 2) [19 / 2, 0, 0, 0, 0, 0] 0 GasType.none_,
    ?_, ?_, ?_, ?_, ?_, ?_, ?_, 141913527 / 178165460, ?_, ?_⟩
  · norm_num [calcPure]
  · norm_num [calcPure]
  · norm_num [calcPure]
  · norm_num [calcPure, abs_lt]
  · norm_num [calcPure, abs_lt]
  · norm_num [calcPure]
  · norm_num [calcPure, abs_lt]
  · norm_num [calcPure]
  · norm_num [abs_lt]

/-- Claim C9: the validator flags the summed mass percentage as in range
exactly when it lies within the inclusive band [90, 110] (so 90 and 110
are in range and 150 is out of range), and it is purely advisory: it never
alters any field of the result. -/
theorem validator_range (m : ℚ) (r : CalcResult) :
    (massOutOfRange m = false ↔ (90 ≤ m ∧ m ≤ 110)) ∧
    massOutOfRange 90 = false ∧ massOutOfRange 110 = false ∧
    massOutOfRange 150 = true ∧
    (validateResult r).2 = r := by
  refine ⟨?_, by decide, by decide, by decide, rfl⟩
  simp [massOutOfRange, not_or, not_lt]

/-- Witness for Claim C9, at the out-of-range value 150 and a concrete
result record. -/
theorem validator_range_witness :
    ((massOutOfRange 150 = false ↔ ((90 : ℚ) ≤ 150 ∧ (150 : ℚ) ≤ 110)) ∧
    massOutOfRange 90 = false ∧ massOutOfRange 110 = false ∧
    massOutOfRange 150 = true ∧
    (validateResult (calcPure 0 0 0 [] 0 GasType.none_)).2 =
      calcPure 0 0 0 [] 0 GasType.none_) :=
  validator_range 150 (calcPure 0 0 0 [] 0 GasType.none_)

/-! ### Numeric-token scanning and marker extraction -/

theorem scanNumsF_ne_nil : ∀ (fuel : Nat) (l : List Char), l.length ≤ fuel →
    (∃ c ∈ l, c.isDigit = true) → scanNumsF fuel l ≠ [] := by
  intro fuel
  induction fuel with
  | zero =>
    intro l hl hex
    obtain ⟨c, hc, _⟩ := hex
    cases l with
    | nil => simp at hc
    | cons a t => simp at hl
  | succ fuel ih =>
    intro l hl hex
    cases l with
    | nil =>
      obtain ⟨c, hc, _⟩ := hex
      simp at hc
    | cons a cs =>
      by_cases ha : a.isDigit
      · simp only [scanNumsF, ha, if_true]
        split
        · split <;> simp
        · simp
      · have hex2 : ∃ c ∈ cs, c.isDigit = true := by
          obtain ⟨c, hc, hd⟩ := hex
          rcases List.mem_cons.mp hc with rfl | hmem
          · exact absurd hd (by simp [ha])
          · exact ⟨c, hmem, hd⟩
        simp only [scanNumsF, ha, if_false]
        exact ih cs (by simpa using Nat.le_of_succ_le_succ (by simpa using hl)) hex2

theorem scanNums_getLast_of_digit (l : List Char)
    (h : ∃ c ∈ l, c.isDigit = true) : ∃ n, (scanNums l).getLast? = some n := by
  have hne := scanNumsF_ne_nil l.length l le_rfl h
  have : (scanNums l).getLast?.isSome = true := List.getLast?_isSome.mpr hne
  exact Option.isSome_iff_exists.mp this

theorem find_number_of_none : ∀ (fixed : List (List Char)) (m : List Char),
    (∀ l2 ∈ fixed, containsSub l2 m = false) → find_number fixed m = none := by
  intro fixed
  induction fixed with
  | nil => intro m _; rfl
  | cons line rest ih =>
    intro m h
    rw [find_number, if_neg (by simp [h line (List.mem_cons_self _ _)])]
    exact ih m (fun l2 hl2 => h l2 (List.mem_cons_of_mem _ hl2))

theorem find_number_first (pre : List (List Char)) (line : List Char)
    (post : List (List Char)) (m n : List Char)
    (hpre : ∀ l2 ∈ pre, containsSub l2 m = false)
    (hline : containsSub line m = true)
    (hn : (scanNums line).getLast? = some n) :
    find_number (pre ++ line :: post) m = some (parseNum n) := by
  induction pre with
  | nil =>
    simp only [List.nil_append]
    rw [find_number, if_pos hline, hn]
  | cons p ps ih =>
    rw [List.cons_append, find_number,
      if_neg (by simp [hpre p (List.mem_cons_self _ _)])]
    exact ih (fun l2 h2 => hpre l2 (List.mem_cons_of_mem _ h2))

/-- Claim C6: for each of the water, HCl and proppant markers, extraction
scans the merged lines in document order, and on the first line containing
the marker returns the last numeric token of that line as the value,
without aggregating across later matching lines; when no line matches, the
field is left unset; and `"Water 7732-18-5 90.123"` yields 90.123. -/
theorem percent_extraction :
    (∀ m ∈ [String.toList "Water 7732-18-5", String.toList "7647-01-0",
        String.toList "14808-60-7"],
      ∀ (pre : List (List Char)) (line : List Char) (post : List (List Char)),
        containsSub line m = true →
        (∀ l2 ∈ pre, containsSub l2 m = false) →
        ∃ n, (scanNums line).getLast? = some n ∧
          find_number (pre ++ line :: post) m = some (parseNum n)) ∧
    (∀ (m : List Char) (fixed : List (List Char)),
      (∀ l2 ∈ fixed, containsSub l2 m = false) → find_number fixed m = none) ∧
    water_percent_of [String.toList "Water 7732-18-5 90.123"] =
      some (90123 / 1000) := by
  refine ⟨?_, fun m fixed h => find_number_of_none fixed m h, ?_⟩
  · intro m hm pre line post hline hpre
    have h7 : ∃ c ∈ line, c.isDigit = true := by
      obtain ⟨u, v, rfl⟩ := exists_of_containsSub line m hline
      refine ⟨'7', ?_, by decide⟩
      have h7m : '7' ∈ m := by
        simp only [List.mem_cons, List.not_mem_nil, or_false] at hm
        rcases hm with rfl | rfl | rfl <;> decide
      simp [List.mem_append, h7m]
    obtain ⟨n, hn⟩ := scanNums_getLast_of_digit line h7
    exact ⟨n, hn, find_number_first pre line post m n hpre hline hn⟩
  · have hc : containsSub (String.toList "Water 7732-18-5 90.123")
        (String.toList "Water 7732-18-5") = true := by decide
    have hn : (scanNums (String.toList "Water 7732-18-5 90.123")).getLast? =
        some (String.toList "90.123") := by decide
    have hfn := find_number_first [] (String.toList "Water 7732-18-5 90.123") []
      (String.toList "Water 7732-18-5") (String.toList "90.123")
      (by intro l2 h2; simp at h2) hc hn
    simp only [List.nil_append] at hfn
    rw [water_percent_of, hfn]
    have hp : parseNum (String.toList "90.123") = 90123 / 1000 := by
      rw [parseNum,
        show (String.toList "90.123").takeWhile (· != '.') =
          ['9', '0'] from by decide,
        show (String.toList "90.123").dropWhile (· != '.') =
          '.' :: ['1', '2', '3'] from by decide]
      norm_num [show digitsVal ['9', '0'] = 90 from by decide,
        show digitsVal ['1', '2', '3'] = 123 from by decide]
    rw [hp]

/-- Witness for Claim C6, at the concrete water line of the spec. -/
theorem percent_extraction_witness :
    ∃ n, (scanNums (String.toList "Water 7732-18-5 90.123")).getLast? = some n ∧
      find_number ([] ++ String.toList "Water 7732-18-5 90.123" :: [])
        (String.toList "Water 7732-18-5") = some (parseNum n) :=
  percent_extraction.1 (String.toList "Water 7732-18-5") (by decide)
    [] (String.toList "Water 7732-18-5 90.123") [] (by decide)
    (by intro l2 h2; simp at h2)

/-! ### The total-water-volume regex -/

theorem digit_not_space {c : Char} (h : c.isDigit = true) : pySpace c = false := by
  by_contra hcon
  rw [Bool.not_eq_false, pySpace] at hcon
  simp only [Bool.or_eq_true, decide_eq_true_eq] at hcon
  rcases hcon with ((((h1 | h1) | h1) | h1) | h1) | h1 <;> subst h1 <;>
    exact absurd h (by decide)

theorem dropWhile_all_append {α : Type} (p : α → Bool) (s r : List α)
    (hs : ∀ c ∈ s, p c = true) (hr : ∀ c, r.head? = some c → p c = false) :
    List.dropWhile p (s ++ r) = r := by
  induction s with
  | nil =>
    simp only [List.nil_append]
    cases r with
    | nil => rfl
    | cons x xs => rw [List.dropWhile_cons, if_neg (by simp [hr x rfl])]
  | cons a t ih =>
    rw [List.cons_append, List.dropWhile_cons,
      if_pos (by simp [hs a (List.mem_cons_self _ _)])]
    exact ih (fun c hc => hs c (List.mem_cons_of_mem _ hc))

theorem takeWhile_all_append {α : Type} (p : α → Bool) (s r : List α)
    (hs : ∀ c ∈ s, p c = true) (hr : ∀ c, r.head? = some c → p c = false) :
    List.takeWhile p (s ++ r) = s := by
  induction s with
  | nil =>
    simp only [List.nil_append]
    cases r with
    | nil => rfl
    | cons x xs => rw [List.takeWhile_cons, if_neg (by simp [hr x rfl])]
  | cons a t ih =>
    rw [List.cons_append, List.takeWhile_cons,
      if_pos (by simp [hs a (List.mem_cons_self _ _)])]
    rw [ih (fun c hc => hs c (List.mem_cons_of_mem _ hc))]

theorem tryColon_mid (mid rest : List Char)
    (hmid : ∀ c ∈ mid, c ≠ ':' ∧ c ≠ '\n') :
    tryColon (mid ++ rest) = tryColon rest := by
  induction mid with
  | nil => rfl
  | cons a t ih =>
    obtain ⟨h1, h2⟩ := hmid a (List.mem_cons_self _ _)
    rw [List.cons_append, tryColon, if_neg h1, if_neg h2]
    exact ih (fun c hc => hmid c (List.mem_cons_of_mem _ hc))

theorem tryColon_colon (sp ds b : List Char)
    (hsp : ∀ c ∈ sp, pySpace c = true) (hne : ds ≠ [])
    (hds : ∀ c ∈ ds, c.isDigit = true)
    (hb : ∀ c, b.head? = some c → c.isDigit = false) :
    tryColon (':' :: (sp ++ ds ++ b)) = some (digitsVal ds) := by
  have h1 : List.dropWhile pySpace (sp ++ ds ++ b) = ds ++ b := by
    rw [List.append_assoc]
    refine dropWhile_all_append pySpace sp (ds ++ b) hsp ?_
    intro c hc
    obtain ⟨d0, ds0, rfl⟩ := List.exists_cons_of_ne_nil hne
    simp only [List.cons_append, List.head?_cons, Option.some_inj] at hc
    subst hc
    exact digit_not_space (hds _ (List.mem_cons_self _ _))
  have h2 : List.takeWhile Char.isDigit (ds ++ b) = ds :=
    takeWhile_all_append Char.isDigit ds b hds hb
  rw [tryColon, if_pos rfl]
  simp only [h1, h2]
  rw [if_neg (by simp [hne])]

theorem searchTBWV_cons (c : Char) (cs : List Char) :
    searchTBWV (c :: cs) =
      if hasPre phraseL (lowerL (c :: cs)) then
        (match tryColon (List.drop 23 (c :: cs)) with
          | some n => some n
          | none => searchTBWV cs)
      else searchTBWV cs := rfl

theorem searchTBWV_none : ∀ (l : List Char),
    containsSub (lowerL l) phraseL = false → searchTBWV l = none := by
  intro l
  induction l with
  | nil => intro _; rfl
  | cons c cs ih =>
    intro h
    rw [show lowerL (c :: cs) = Char.toLower c :: lowerL cs from rfl,
      containsSub] at h
    simp only [Bool.or_eq_false_iff] at h
    have h1 : hasPre phraseL (lowerL (c :: cs)) = false := h.1
    simp only [searchTBWV]
    rw [if_neg (by simp [h1])]
    exact ih h.2

theorem searchTBWV_anchor (ph mid sp ds b : List Char)
    (hph : lowerL ph = phraseL)
    (hmid : ∀ c ∈ mid, c ≠ ':' ∧ c ≠ '\n')
    (hsp : ∀ c ∈ sp, pySpace c = true) (hne : ds ≠ [])
    (hds : ∀ c ∈ ds, c.isDigit = true)
    (hb : ∀ c, b.head? = some c → c.isDigit = false) :
    searchTBWV (ph ++ (mid ++ ':' :: (sp ++ ds ++ b))) = some (digitsVal ds) := by
  have hlen : ph.length = 23 := by
    have := congrArg List.length hph
    rwa [lowerL, List.length_map, show phraseL.length = 23 from rfl] at this
  obtain ⟨c0, cs0, rfl⟩ : ∃ c0 cs0, ph = c0 :: cs0 := by
    cases ph with
    | nil => simp at hlen
    | cons a t => exact ⟨a, t, rfl⟩
  have hpre : hasPre phraseL
      (lowerL ((c0 :: cs0) ++ (mid ++ ':' :: (sp ++ ds ++ b)))) = true := by
    rw [lowerL, List.map_append, ← lowerL, ← lowerL, hph]
    exact hasPre_append_self phraseL _
  rw [List.cons_append] at hpre ⊢
  rw [searchTBWV_cons, if_pos hpre]
  have hdrop : List.drop 23 (c0 :: (cs0 ++ (mid ++ ':' :: (sp ++ ds ++ b)))) =
      mid ++ ':' :: (sp ++ ds ++ b) := by
    rw [← List.cons_append, ← hlen, List.drop_left]
  rw [hdrop, tryColon_mid mid _ hmid, tryColon_colon sp ds b hsp hne hds hb]

/-- Claim C7: `total_water_volume` extraction searches the joined merged
lines case-insensitively for the header phrase followed eventually (on the
same line) by a colon, optional whitespace and digits, returning the first
match's digit run as an integer; when the phrase occurs nowhere in the text
the field is `None`, which is distinct from 0. -/
theorem totalWaterVolume_extraction :
    (∀ lines, containsSub (lowerL (joinNL lines)) phraseL = false →
      total_water_volume_of lines = none) ∧
    (∀ ph mid sp ds b : List Char, lowerL ph = phraseL →
      (∀ c ∈ mid, c ≠ ':' ∧ c ≠ '\n') →
      (∀ c ∈ sp, pySpace c = true) → ds ≠ [] →
      (∀ c ∈ ds, c.isDigit = true) →
      (∀ c, b.head? = some c → c.isDigit = false) →
      searchTBWV (ph ++ (mid ++ ':' :: (sp ++ ds ++ b))) =
        some (digitsVal ds)) ∧
    total_water_volume_of
      [String.toList "Total Base Water Volume (gal): 100000"] = some 100000 ∧
    total_water_volume_of [String.toList "tOTAL bASE wATER vOLUME: 42"] =
      some 42 ∧
    total_water_volume_of [String.toList "Total Base Water Volume: 11",
      String.toList "Total Base Water Volume: 22"] = some 11 ∧
    total_water_volume_of [String.toList "no header here 5"] = none :=
  ⟨fun lines h => searchTBWV_none (joinNL lines) h,
   searchTBWV_anchor, by decide, by decide, by decide, by decide⟩

/-- Witness for Claim C7, at a concrete header line. -/
theorem totalWaterVolume_extraction_witness :
    searchTBWV (String.toList "Total Base Water Volume" ++
        (String.toList " (gal)" ++ ':' ::
          (String.toList " " ++ String.toList "100000" ++ []))) =
      some (digitsVal (String.toList "100000")) :=
  totalWaterVolume_extraction.2.1 (String.toList "Total Base Water Volume")
    (String.toList " (gal)") (String.toList " ") (String.toList "100000") []
    (by decide) (by decide) (by decide) (by decide) (by decide)
    (by intro c hc; simp at hc)

/-! ### Batch mode -/

theorem runBatch_spec : ∀ (docs : List BatchDoc),
    (runBatch docs).1 = docs.filterMap (fun d => (processDoc d).toOption) ∧
    (runBatch docs).2 =
      (docs.filter (fun d => !(processDoc d).toBool)).map BatchDoc.name ∧
    (runBatch docs).1.length + (runBatch docs).2.length = docs.length := by
  intro docs
  induction docs with
  | nil => exact ⟨rfl, rfl, rfl⟩
  | cons d ds ih =>
    obtain ⟨ih1, ih2, ih3⟩ := ih
    cases hpd : processDoc d with
    | ok row =>
      refine ⟨?_, ?_, ?_⟩ <;>
        simp [runBatch, hpd, List.filterMap_cons, List.filter_cons,
          Except.toOption, Except.toBool, ih1, ih2, ← ih3] <;> omega
    | error e =>
      refine ⟨?_, ?_, ?_⟩ <;>
        simp [runBatch, hpd, List.filterMap_cons, List.filter_cons,
          Except.toOption, Except.toBool, ih1, ih2, ← ih3] <;> omega

theorem processDoc_empty (k : Nat) :
    processDoc ⟨k, BatchOutcome.readable []⟩ =
      Except.ok (calcPure 0 0 0 [0] 0 GasType.none_, k) := by
  simp only [processDoc,
    show extractVals (fixLines []) = ExtractedVals.mk none none none none 0
      from rfl,
    Option.getD_none, Nat.cast_zero, calculate_eq]

/-- Claim C8: the batch loop is order-preserving and failure-isolating:
its result rows are exactly the successfully processed documents' rows in
document order (each tagged with the document identifier), its error list
records exactly the failed documents in order, the two together cover all
N documents, and a failure on one document never aborts the rest; in
particular 3 documents with the middle one corrupt yield the 2 rows of
documents 1 and 3 plus 1 recorded error naming document 2. -/
theorem batch_isolation :
    (∀ docs : List BatchDoc,
      (runBatch docs).1 = docs.filterMap (fun d => (processDoc d).toOption) ∧
      (runBatch docs).2 =
        (docs.filter (fun d => !(processDoc d).toBool)).map BatchDoc.name ∧
      (runBatch docs).1.length + (runBatch docs).2.length = docs.length) ∧
    (runBatch [⟨1, BatchOutcome.readable []⟩, ⟨2, BatchOutcome.corrupt⟩,
        ⟨3, BatchOutcome.readable []⟩]).1.map Prod.snd = [1, 3] ∧
    (runBatch [⟨1, BatchOutcome.readable []⟩, ⟨2, BatchOutcome.corrupt⟩,
        ⟨3, BatchOutcome.readable []⟩]).2 = [2] := by
  refine ⟨runBatch_spec, ?_, ?_⟩ <;>
    simp [runBatch, processDoc_empty 1, processDoc_empty 3,
      show processDoc ⟨2, BatchOutcome.corrupt⟩ = Except.error () from rfl]

/-- Claim C10: every result row of batch mode was produced by `calculate`
with gas type fixed to `"None"`, the always-0 extracted gas percent, and a
single proppant slot, so each row has all three gas outputs null and the
no-gas remark, and its proppant total is drawn only from the extracted
slot-1 value and the water volume. -/
theorem batch_gas_invariant :
    (∀ (docs : List BatchDoc) (c : CalcResult) (n : Nat),
      (c, n) ∈ (runBatch docs).1 →
      c.gas_weight_lbs = none ∧ c.co2_weight_tons = none ∧
        c.nitrogen_volume_scf = none ∧ c.remark = Remark.noGas) ∧
    (∀ (d : BatchDoc) (c : CalcResult) (n : Nat) (ls : List (List Char)),
      d.outcome = BatchOutcome.readable ls →
      processDoc d = Except.ok (c, n) →
      n = d.name ∧ (extractVals (fixLines ls)).gas_percent = 0 ∧
      c.total_proppant_weight =
        (if (extractVals (fixLines ls)).proppant_percent.getD 0 ≠ 0 then
          (extractVals (fixLines ls)).proppant_percent.getD 0 / 100 *
            ((((extractVals (fixLines ls)).total_water_volume.getD 0 : Nat) :
                ℚ) * (83454 / 10000))
        else 0)) := by
  constructor
  · intro docs c n hmem
    rw [(runBatch_spec docs).1] at hmem
    obtain ⟨d, _, hopt⟩ := List.mem_filterMap.mp hmem
    have hok : processDoc d = Except.ok (c, n) := by
      cases hpd : processDoc d with
      | ok row =>
        rw [hpd] at hopt
        simp only [Except.toOption, Option.some_inj] at hopt
        rw [hopt]
      | error e =>
        rw [hpd] at hopt
        simp [Except.toOption] at hopt
    cases hout : d.outcome with
    | corrupt =>
      rw [processDoc, hout] at hok
      exact absurd hok (by simp)
    | readable ls =>
      rw [processDoc, hout] at hok
      simp only [calculate_eq, Except.ok.injEq, Prod.mk.injEq] at hok
      obtain ⟨hc, -⟩ := hok
      subst hc
      refine ⟨?_, ?_, ?_, ?_⟩ <;> simp [calcPure]
  · intro d c n ls hout hok
    rw [processDoc, hout] at hok
    simp only [calculate_eq, Except.ok.injEq, Prod.mk.injEq] at hok
    obtain ⟨hc, hn⟩ := hok
    subst hc
    refine ⟨hn.symm, rfl, ?_⟩
    simp [calcPure]

/-- Witness for Claim C10, at a concrete one-document batch. -/
theorem batch_gas_invariant_witness :
    (calcPure 0 0 0 [0] 0 GasType.none_).gas_weight_lbs = none ∧
    (calcPure 0 0 0 [0] 0 GasType.none_).co2_weight_tons = none ∧
    (calcPure 0 0 0 [0] 0 GasType.none_).nitrogen_volume_scf = none ∧
    (calcPure 0 0 0 [0] 0 GasType.none_).remark = Remark.noGas :=
  batch_gas_invariant.1 [⟨5, BatchOutcome.readable []⟩]
    (calcPure 0 0 0 [0] 0 GasType.none_) 5
    (by simp [runBatch, processDoc_empty 5])

end FracCalc
